import Mathlib

/-!
Verification of the event-stream-to-frame integration engine of the
spikingjelly repository, together with the `NAVGestureWalk` dataset adapter
(`spikingjelly/datasets/nav_gesture.py`) and the `cnn_mnist` ann2snn example
(`spikingjelly/clock_driven/ann2snn/examples/cnn_mnist.py`).

The segment indexer, frame integrator, frame cache and configuration
validation live in `spikingjelly/datasets/__init__.py`, which is not among
the provided source files (only its caller `NAVGestureWalk.__init__` is);
those components are modelled from the specification, as marked on each
definition.  The `nav_gesture.py` and `cnn_mnist.py` behaviours are embedded
directly from the source.
-/

/- ## SegmentIndexer, fixed-count mode, split_by = "number" -/

/-- Modelled from the spec: SegmentIndexer, fixed-count mode with
`split_by = "number"` (the indexer function itself is not among the provided
source files).  The `N` events are divided into `F` groups: group sizes are
`N / F`, with the first `N % F` groups receiving one extra event. -/
def fixedNumberSegSize (N F i : ℕ) : ℕ :=
  N / F + (if i < N % F then 1 else 0)

/-- Modelled from the spec: segments are contiguous, so the left boundary of
segment `i` is the partial sum of the sizes of the groups before it; segment
`i` is the half-open index range
`[fixedNumberSegStart N F i, fixedNumberSegStart N F (i+1))`. -/
def fixedNumberSegStart (N F : ℕ) : ℕ → ℕ
  | 0 => 0
  | i + 1 => fixedNumberSegStart N F i + fixedNumberSegSize N F i

lemma fixedNumberSegStart_closed (N F : ℕ) :
    ∀ i, fixedNumberSegStart N F i = i * (N / F) + min i (N % F) := by
  intro i
  induction i with
  | zero => simp [fixedNumberSegStart]
  | succ i ih =>
      rw [fixedNumberSegStart, ih, fixedNumberSegSize, Nat.succ_mul]
      by_cases h : i < N % F <;> simp [h] <;> omega

lemma fixedNumberSegStart_sum (N F : ℕ) :
    ∀ n, fixedNumberSegStart N F n = ∑ i in Finset.range n, fixedNumberSegSize N F i := by
  intro n
  induction n with
  | zero => simp [fixedNumberSegStart]
  | succ n ih => rw [fixedNumberSegStart, ih, Finset.sum_range_succ]

/-- C1: with `split_by = "number"`, the `F` groups have sizes `N / F` with the
first `N % F` groups receiving one extra event; the contiguous half-open
segments therefore cover `[0, N)` exactly, the sizes sum to `N`, are
non-increasing, differ pairwise by at most 1, and for `N = 10`, `F = 4` the
sizes are `[3, 3, 2, 2]`. -/
theorem claim_C1_fixed_number_split (N F : ℕ) (hF : 1 ≤ F) :
    fixedNumberSegStart N F F = N ∧
    (∑ i in Finset.range F, fixedNumberSegSize N F i) = N ∧
    (∀ i j, i ≤ j → fixedNumberSegSize N F j ≤ fixedNumberSegSize N F i) ∧
    (∀ i j, fixedNumberSegSize N F i ≤ fixedNumberSegSize N F j + 1) ∧
    (List.range 4).map (fixedNumberSegSize 10 4) = [3, 3, 2, 2] := by
  have hmod : N % F < F := Nat.mod_lt _ hF
  have htot : fixedNumberSegStart N F F = N := by
    rw [fixedNumberSegStart_closed]
    have hmin : min F (N % F) = N % F := by omega
    rw [hmin]
    have := Nat.div_add_mod N F
    omega
  refine ⟨htot, ?_, ?_, ?_, ?_⟩
  · rw [← fixedNumberSegStart_sum]; exact htot
  · intro i j hij
    unfold fixedNumberSegSize
    by_cases hi : i < N % F <;> by_cases hj : j < N % F <;> simp [hi, hj] <;> omega
  · intro i j
    unfold fixedNumberSegSize
    by_cases hi : i < N % F <;> by_cases hj : j < N % F <;> simp [hi, hj] <;> omega
  · decide

theorem claim_C1_fixed_number_split_witness :
    1 ≤ 4 ∧ (List.range 4).map (fixedNumberSegSize 10 4) = [3, 3, 2, 2] :=
  ⟨by decide, (claim_C1_fixed_number_split 10 4 (by decide)).2.2.2.2⟩

/- ## EventBuffer and FrameIntegrator -/

/-- Modelled from the spec: an EventBuffer owns four same-length ordered
sequences `t`, `x`, `y`, `p` for one recording; indices address events in
temporal order. -/
structure EventBuffer where
  t : List ℕ
  x : List ℕ
  y : List ℕ
  p : List ℕ

inductive IntegrationError where
  | coordinateOutOfBounds
deriving DecidableEq

/-- A frame is a `(2, H, W)` count tensor, represented as a curried counting
function `channel → row → column → count`; entries outside the shape are 0. -/
def emptyFrame : ℕ → ℕ → ℕ → ℕ := fun _ _ _ => 0

/-- Increment the single entry `(pe, ye, xe)` of a frame by one. -/
def bump (f : ℕ → ℕ → ℕ → ℕ) (pe ye xe : ℕ) : ℕ → ℕ → ℕ → ℕ :=
  fun c j i => if c = pe ∧ j = ye ∧ i = xe then f c j i + 1 else f c j i

/-- Modelled from the spec: FrameIntegrator loop.  Scan the listed event
indices in order; for each event whose coordinates are within `W × H`,
increment `frame[p[k], y[k], x[k]]`; an event with `x ≥ W` or `y ≥ H` aborts
with `CoordinateOutOfBoundsError`. -/
def integAux (eb : EventBuffer) (H W : ℕ) :
    List ℕ → (ℕ → ℕ → ℕ → ℕ) → Except IntegrationError (ℕ → ℕ → ℕ → ℕ)
  | [], f => Except.ok f
  | k :: rest, f =>
    if eb.x.getD k 0 < W ∧ eb.y.getD k 0 < H then
      integAux eb H W rest (bump f (eb.p.getD k 0) (eb.y.getD k 0) (eb.x.getD k 0))
    else Except.error IntegrationError.coordinateOutOfBounds

/-- Modelled from the spec: FrameIntegrator.  Given a Segment `[s, e)` and an
EventBuffer, produce one `(2, H, W)` frame by counting the events of the
segment. -/
def integrate_events_segment_to_frame (eb : EventBuffer) (H W s e : ℕ) :
    Except IntegrationError (ℕ → ℕ → ℕ → ℕ) :=
  integAux eb H W (List.range' s (e - s)) emptyFrame

/-- Number of events among the listed indices hitting frame cell `(c, j, i)`. -/
def matchCountOn (eb : EventBuffer) (l : List ℕ) (c j i : ℕ) : ℕ :=
  l.countP (fun k => decide (eb.p.getD k 0 = c ∧ eb.y.getD k 0 = j ∧ eb.x.getD k 0 = i))

/-- Number of events of segment `[s, e)` hitting frame cell `(c, j, i)`. -/
def segMatchCount (eb : EventBuffer) (s e c j i : ℕ) : ℕ :=
  matchCountOn eb (List.range' s (e - s)) c j i

lemma integAux_ok_of_inbounds (eb : EventBuffer) (H W : ℕ) :
    ∀ (l : List ℕ) (f : ℕ → ℕ → ℕ → ℕ),
      (∀ k ∈ l, eb.x.getD k 0 < W ∧ eb.y.getD k 0 < H) →
      ∃ g, integAux eb H W l f = Except.ok g ∧
        ∀ c j i, g c j i = f c j i + matchCountOn eb l c j i := by
  intro l
  induction l with
  | nil =>
      intro f _
      exact ⟨f, rfl, by intro c j i; simp [matchCountOn]⟩
  | cons k rest ih =>
      intro f hgood
      have hk := hgood k (by simp)
      obtain ⟨g, hg, hcount⟩ :=
        ih (bump f (eb.p.getD k 0) (eb.y.getD k 0) (eb.x.getD k 0))
          (fun a ha => hgood a (by simp [ha]))
      refine ⟨g, ?_, ?_⟩
      · rw [integAux, if_pos hk]; exact hg
      · intro c j i
        have hrw : matchCountOn eb (k :: rest) c j i
            = matchCountOn eb rest c j i
              + (if eb.p.getD k 0 = c ∧ eb.y.getD k 0 = j ∧ eb.x.getD k 0 = i
                 then 1 else 0) := by
          simp [matchCountOn, List.countP_cons]
        rw [hcount c j i, hrw, bump]
        by_cases hm : c = eb.p.getD k 0 ∧ j = eb.y.getD k 0 ∧ i = eb.x.getD k 0
        · obtain ⟨h1, h2, h3⟩ := hm
          rw [if_pos ⟨h1, h2, h3⟩, if_pos ⟨h1.symm, h2.symm, h3.symm⟩]
          omega
        · have hm' : ¬ (eb.p.getD k 0 = c ∧ eb.y.getD k 0 = j ∧ eb.x.getD k 0 = i) := by
            intro hc; exact hm ⟨hc.1.symm, hc.2.1.symm, hc.2.2.symm⟩
          rw [if_neg hm, if_neg hm']
          omega

/-- Total of a frame over the `(2, H, W)` shape. -/
def frameTotal (H W : ℕ) (f : ℕ → ℕ → ℕ → ℕ) : ℕ :=
  ∑ c in Finset.range 2, ∑ j in Finset.range H, ∑ i in Finset.range W, f c j i

lemma indicator_cell_total (H W pe ye xe : ℕ) (hp : pe < 2) (hy : ye < H) (hx : xe < W) :
    frameTotal H W (fun c j i => if pe = c ∧ ye = j ∧ xe = i then 1 else 0) = 1 := by
  unfold frameTotal
  have hinner : ∀ c j, (∑ i in Finset.range W,
      (if pe = c ∧ ye = j ∧ xe = i then 1 else 0)) =
      if pe = c ∧ ye = j then 1 else 0 := by
    intro c j
    by_cases hcj : pe = c ∧ ye = j
    · rw [if_pos hcj]
      have : ∀ i, (if pe = c ∧ ye = j ∧ xe = i then (1 : ℕ) else 0) =
          if i = xe then 1 else 0 := by
        intro i
        by_cases hi : i = xe
        · rw [if_pos ⟨hcj.1, hcj.2, hi.symm⟩, if_pos hi]
        · rw [if_neg (fun hc => hi hc.2.2.symm), if_neg hi]
      rw [Finset.sum_congr rfl (fun i _ => this i), Finset.sum_ite_eq' (Finset.range W) xe]
      simp [Finset.mem_range.mpr hx]
    · rw [if_neg hcj]
      refine Finset.sum_eq_zero (fun i _ => ?_)
      exact if_neg (fun hc => hcj ⟨hc.1, hc.2.1⟩)
  have hmid : ∀ c, (∑ j in Finset.range H,
      (if pe = c ∧ ye = j then (1 : ℕ) else 0)) = if pe = c then 1 else 0 := by
    intro c
    by_cases hc : pe = c
    · rw [if_pos hc]
      have : ∀ j, (if pe = c ∧ ye = j then (1 : ℕ) else 0) = if j = ye then 1 else 0 := by
        intro j
        by_cases hj : j = ye
        · rw [if_pos ⟨hc, hj.symm⟩, if_pos hj]
        · rw [if_neg (fun hcc => hj hcc.2.symm), if_neg hj]
      rw [Finset.sum_congr rfl (fun j _ => this j), Finset.sum_ite_eq' (Finset.range H) ye]
      simp [Finset.mem_range.mpr hy]
    · rw [if_neg hc]
      refine Finset.sum_eq_zero (fun j _ => ?_)
      exact if_neg (fun hcc => hc hcc.1)
  rw [Finset.sum_congr rfl (fun c _ => by
        rw [Finset.sum_congr rfl (fun j _ => hinner c j), hmid c])]
  rw [Finset.sum_ite_eq (Finset.range 2) pe]
  simp [Finset.mem_range.mpr hp]

lemma matchCountOn_total (eb : EventBuffer) (H W : ℕ) :
    ∀ l : List ℕ,
      (∀ k ∈ l, eb.p.getD k 0 < 2 ∧ eb.y.getD k 0 < H ∧ eb.x.getD k 0 < W) →
      frameTotal H W (fun c j i => matchCountOn eb l c j i) = l.length := by
  intro l
  induction l with
  | nil => intro _; simp [frameTotal, matchCountOn]
  | cons k rest ih =>
      intro hgood
      obtain ⟨hp, hy, hx⟩ := hgood k (by simp)
      have hrest := ih (fun a ha => hgood a (by simp [ha]))
      have hsplit : ∀ c j i, matchCountOn eb (k :: rest) c j i =
          matchCountOn eb rest c j i
            + (if eb.p.getD k 0 = c ∧ eb.y.getD k 0 = j ∧ eb.x.getD k 0 = i
               then 1 else 0) := by
        intro c j i
        simp [matchCountOn, List.countP_cons]
      have htot : frameTotal H W (fun c j i => matchCountOn eb (k :: rest) c j i)
          = frameTotal H W (fun c j i => matchCountOn eb rest c j i)
            + frameTotal H W (fun c j i =>
                if eb.p.getD k 0 = c ∧ eb.y.getD k 0 = j ∧ eb.x.getD k 0 = i
                then 1 else 0) := by
        unfold frameTotal
        rw [← Finset.sum_add_distrib]
        refine Finset.sum_congr rfl (fun c _ => ?_)
        rw [← Finset.sum_add_distrib]
        refine Finset.sum_congr rfl (fun j _ => ?_)
        rw [← Finset.sum_add_distrib]
        exact Finset.sum_congr rfl (fun i _ => hsplit c j i)
      rw [htot, hrest, indicator_cell_total H W _ _ _ hp hy hx]
      simp

lemma integAux_error_of_bad (eb : EventBuffer) (H W : ℕ) :
    ∀ (l : List ℕ) (f : ℕ → ℕ → ℕ → ℕ) (k : ℕ),
      k ∈ l → (W ≤ eb.x.getD k 0 ∨ H ≤ eb.y.getD k 0) →
      integAux eb H W l f = Except.error IntegrationError.coordinateOutOfBounds := by
  intro l
  induction l with
  | nil => intro f k hk _; simp at hk
  | cons a rest ih =>
      intro f k hk hbad
      by_cases ha : eb.x.getD a 0 < W ∧ eb.y.getD a 0 < H
      · have hka : k ≠ a := by
          intro he; rw [he] at hbad; omega
        have hkrest : k ∈ rest := by
          rcases List.mem_cons.mp hk with h | h
          · exact absurd h hka
          · exact h
        rw [integAux, if_pos ha]
        exact ih _ k hkrest hbad
      · rw [integAux, if_neg ha]

/-- C4: for a segment whose events all have `p < 2`, `y < H`, `x < W`, the
integrated frame is produced successfully, each entry `frame[p, y, x]` equals
the number of events of the segment with that polarity and those coordinates,
the total over the `(2, H, W)` shape equals `e - s` (no events lost or
double-counted), and entries outside the `(2, H, W)` shape are 0. -/
theorem claim_C4_frame_counts (eb : EventBuffer) (H W s e : ℕ)
    (hin : ∀ k ∈ List.range' s (e - s),
      eb.p.getD k 0 < 2 ∧ eb.y.getD k 0 < H ∧ eb.x.getD k 0 < W) :
    ∃ g, integrate_events_segment_to_frame eb H W s e = Except.ok g ∧
      (∀ c j i, g c j i = segMatchCount eb s e c j i) ∧
      frameTotal H W g = e - s ∧
      (∀ c j i, 2 ≤ c ∨ H ≤ j ∨ W ≤ i → g c j i = 0) := by
  obtain ⟨g, hg, hcount⟩ := integAux_ok_of_inbounds eb H W (List.range' s (e - s))
    emptyFrame (fun k hk => ⟨(hin k hk).2.2, (hin k hk).2.1⟩)
  have hcell : ∀ c j i, g c j i = matchCountOn eb (List.range' s (e - s)) c j i := by
    intro c j i
    rw [hcount c j i]
    simp [emptyFrame]
  refine ⟨g, hg, ?_, ?_, ?_⟩
  · intro c j i
    rw [hcell c j i, segMatchCount]
  · have htot := matchCountOn_total eb H W (List.range' s (e - s)) hin
    have hft : frameTotal H W g
        = frameTotal H W (fun c j i => matchCountOn eb (List.range' s (e - s)) c j i) := by
      unfold frameTotal
      refine Finset.sum_congr rfl (fun c _ => Finset.sum_congr rfl
        (fun j _ => Finset.sum_congr rfl (fun i _ => hcell c j i)))
    rw [hft, htot, List.length_range']
  · intro c j i hout
    rw [hcell c j i, matchCountOn, List.countP_eq_zero]
    intro k hk
    have hb := hin k hk
    simp only [decide_eq_true_eq]
    intro hc
    omega

theorem claim_C4_frame_counts_witness :
    ∃ g, integrate_events_segment_to_frame ⟨[0, 1], [0, 1], [0, 0], [0, 1]⟩ 1 2 0 2
        = Except.ok g ∧
      (∀ c j i, g c j i = segMatchCount ⟨[0, 1], [0, 1], [0, 0], [0, 1]⟩ 0 2 c j i) ∧
      frameTotal 1 2 g = 2 - 0 ∧
      (∀ c j i, 2 ≤ c ∨ 1 ≤ j ∨ 2 ≤ i → g c j i = 0) :=
  claim_C4_frame_counts ⟨[0, 1], [0, 1], [0, 0], [0, 1]⟩ 1 2 0 2 (by decide)

/-- C5: integrating a segment containing an event with `x ≥ W` or `y ≥ H`
fails with `CoordinateOutOfBoundsError` (no clipping or wrapping), while a
segment whose events all satisfy `x < W` and `y < H` — in particular events at
the extreme in-bounds corner `x = W - 1`, `y = H - 1` — integrates
successfully. -/
theorem claim_C5_coordinate_bounds (eb : EventBuffer) (H W s e : ℕ) :
    ((∃ k, k ∈ List.range' s (e - s) ∧ (W ≤ eb.x.getD k 0 ∨ H ≤ eb.y.getD k 0)) →
      integrate_events_segment_to_frame eb H W s e
        = Except.error IntegrationError.coordinateOutOfBounds) ∧
    ((∀ k ∈ List.range' s (e - s), eb.x.getD k 0 < W ∧ eb.y.getD k 0 < H) →
      ∃ g, integrate_events_segment_to_frame eb H W s e = Except.ok g) := by
  constructor
  · rintro ⟨k, hk, hbad⟩
    exact integAux_error_of_bad eb H W _ emptyFrame k hk hbad
  · intro hgood
    obtain ⟨g, hg, _⟩ := integAux_ok_of_inbounds eb H W _ emptyFrame hgood
    exact ⟨g, hg⟩

theorem claim_C5_coordinate_bounds_witness :
    integrate_events_segment_to_frame ⟨[0], [2], [0], [0]⟩ 2 2 0 1
      = Except.error IntegrationError.coordinateOutOfBounds ∧
    ∃ g, integrate_events_segment_to_frame ⟨[0], [1], [1], [0]⟩ 2 2 0 1 = Except.ok g :=
  ⟨(claim_C5_coordinate_bounds ⟨[0], [2], [0], [0]⟩ 2 2 0 1).1 ⟨0, by decide, by decide⟩,
   (claim_C5_coordinate_bounds ⟨[0], [1], [1], [0]⟩ 2 2 0 1).2 (by decide)⟩

/- ## SegmentIndexer, fixed-count mode, split_by = "time" -/

/-- Modelled from the spec: the number of events whose timestamp is at most
the (rational) bound `e`; on a sorted recording this is the first index whose
timestamp exceeds `e` ("segment boundaries are the indices where `t` first
exceeds each window's upper edge"). -/
def countLE (t : List ℕ) (e : ℚ) : ℕ :=
  t.countP (fun (a : ℕ) => decide ((a : ℚ) ≤ e))

/-- Modelled from the spec: upper edge of zero-based window `i` when the full
span `[t0, tN]` is divided into `F` equal-width time windows. -/
def timeUpperEdge (t0 tN F i : ℕ) : ℚ :=
  (t0 : ℚ) + ((i : ℚ) + 1) * ((tN : ℚ) - (t0 : ℚ)) / (F : ℚ)

/-- Modelled from the spec: right boundary of time-window segment `i`. -/
def timeSegEnd (t : List ℕ) (F i : ℕ) : ℕ :=
  countLE t (timeUpperEdge (t.headD 0) (t.getLastD 0) F i)

/-- Modelled from the spec: left boundary of time-window segment `i`; the
segments are contiguous, so it is the right boundary of segment `i - 1`. -/
def timeSegStart (t : List ℕ) (F : ℕ) : ℕ → ℕ
  | 0 => 0
  | i + 1 => timeSegEnd t F i

/-- The `F` time-window segments of a recording. -/
def timeSegments (t : List ℕ) (F : ℕ) : List (ℕ × ℕ) :=
  (List.range F).map (fun i => (timeSegStart t F i, timeSegEnd t F i))

lemma countLE_eq_zero_of_forall (t : List ℕ) (e : ℚ)
    (h : ∀ a ∈ t, ¬ ((a : ℚ) ≤ e)) : countLE t e = 0 := by
  rw [countLE, List.countP_eq_zero]
  intro a ha
  simpa using h a ha

lemma getDmem_of_lt (l : List ℕ) (d n : ℕ) (h : n < l.length) : l.getD n d ∈ l := by
  rw [List.getD_eq_getElem l d h]
  exact List.getElem_mem h

lemma sorted_countLE_iff (e : ℚ) :
    ∀ (t : List ℕ), List.Sorted (· ≤ ·) t →
      ∀ j, j < t.length → (j < countLE t e ↔ ((t.getD j 0 : ℚ) ≤ e)) := by
  intro t
  induction t with
  | nil => intro _ j hj; simp at hj
  | cons a tl ih =>
      intro ht j hj
      obtain ⟨ha, htl⟩ := List.sorted_cons.mp ht
      by_cases hae : (a : ℚ) ≤ e
      · have hcount : countLE (a :: tl) e = countLE tl e + 1 := by
          simp [countLE, List.countP_cons, hae]
        cases j with
        | zero => simp [hcount, hae]
        | succ j =>
            have hj' : j < tl.length := by simpa using hj
            have hih := ih htl j hj'
            simpa [hcount, Nat.succ_lt_succ_iff] using hih
      · have h0 : countLE tl e = 0 :=
          countLE_eq_zero_of_forall tl e (fun b hb hble =>
            hae (le_trans (by exact_mod_cast ha b hb) hble))
        have hcount : countLE (a :: tl) e = 0 := by
          rw [countLE, List.countP_cons]
          simp only [hae, decide_eq_true_eq, if_false]
          simpa [countLE] using h0
        cases j with
        | zero => simp [hcount, hae]
        | succ j =>
            have hj' : j < tl.length := by simpa using hj
            have hmem : tl.getD j 0 ∈ tl := getDmem_of_lt tl 0 j hj'
            have hnot : ¬ ((tl.getD j 0 : ℚ) ≤ e) := fun hle =>
              hae (le_trans (by exact_mod_cast ha _ hmem) hle)
            simpa [hcount] using hnot

lemma getLastD_mem_of_ne_nil : ∀ (l : List ℕ) (d : ℕ), l ≠ [] → l.getLastD d ∈ l := by
  intro l
  induction l with
  | nil => intro d h; exact absurd rfl h
  | cons a tl ih =>
      intro d _
      cases tl with
      | nil => simp [List.getLastD]
      | cons b tl' =>
          rw [List.getLastD_cons]
          exact List.mem_cons_of_mem a (ih a (by simp))

lemma le_getLastD_of_sorted : ∀ (t : List ℕ), List.Sorted (· ≤ ·) t →
    ∀ (d : ℕ), ∀ a ∈ t, a ≤ t.getLastD d := by
  intro t
  induction t with
  | nil => intro _ d a ha; simp at ha
  | cons hd tl ih =>
      intro ht d a ha
      obtain ⟨hhd, htl⟩ := List.sorted_cons.mp ht
      rw [List.getLastD_cons]
      rcases List.mem_cons.mp ha with h | h
      · subst h
        cases tl with
        | nil => simp [List.getLastD]
        | cons b tl' =>
            exact hhd _ (getLastD_mem_of_ne_nil (b :: tl') a (by simp))
      · exact ih htl hd a h

lemma headD_le_of_sorted (t : List ℕ) (ht : List.Sorted (· ≤ ·) t) :
    ∀ a ∈ t, t.headD 0 ≤ a := by
  cases t with
  | nil => intro a ha; simp at ha
  | cons hd tl =>
      intro a ha
      obtain ⟨hhd, _⟩ := List.sorted_cons.mp ht
      rcases List.mem_cons.mp ha with h | h
      · subst h; simp
      · simpa using hhd a h

lemma headD_mem_of_ne_nil (t : List ℕ) (h : t ≠ []) : t.headD 0 ∈ t := by
  cases t with
  | nil => exact absurd rfl h
  | cons hd tl => simp

lemma timeUpperEdge_step_mono (t0 tN F : ℕ) (h : t0 ≤ tN) (i : ℕ) :
    timeUpperEdge t0 tN F i ≤ timeUpperEdge t0 tN F (i + 1) := by
  unfold timeUpperEdge
  rw [mul_div_assoc, mul_div_assoc]
  have hd : (0 : ℚ) ≤ ((tN : ℚ) - t0) / F :=
    div_nonneg (sub_nonneg.mpr (by exact_mod_cast h)) (Nat.cast_nonneg F)
  have hle : ((i : ℚ) + 1) ≤ (((i + 1 : ℕ) : ℚ) + 1) := by push_cast; linarith
  have := mul_le_mul_of_nonneg_right hle hd
  linarith

lemma timeUpperEdge_last (t0 tN F : ℕ) (hF : 1 ≤ F) :
    timeUpperEdge t0 tN F (F - 1) = (tN : ℚ) := by
  unfold timeUpperEdge
  have hF0 : (F : ℚ) ≠ 0 := by
    have hne : F ≠ 0 := by omega
    exact_mod_cast hne
  rw [Nat.cast_sub hF]
  push_cast
  field_simp

lemma countLE_mono (t : List ℕ) (e e' : ℚ) (h : e ≤ e') : countLE t e ≤ countLE t e' := by
  unfold countLE
  refine List.countP_mono_left (fun a _ => ?_)
  simp only [decide_eq_true_eq]
  intro hle
  exact le_trans hle h

/-- C2: with `split_by = "time"` on a sorted nonempty recording, there are
exactly `F` segments; they cover all `N` events (the right boundary of the
last segment is `N`); each segment is well-formed (`start ≤ end`); the `F`
windows are contiguous and equal-width; an event index `j` lies in segment
`i` exactly when its timestamp is at most window `i`'s upper edge and (for
`i > 0`) strictly above window `i - 1`'s upper edge — so an event whose
timestamp equals a window's upper edge belongs to that window, not the next;
and a segment with `start = end` integrates to the all-zero frame. -/
theorem claim_C2_fixed_time_split (t : List ℕ) (F : ℕ)
    (ht : List.Sorted (· ≤ ·) t) (hne : t ≠ []) (hF : 1 ≤ F) :
    (timeSegments t F).length = F ∧
    timeSegEnd t F (F - 1) = t.length ∧
    (∀ i, timeSegStart t F i ≤ timeSegEnd t F i) ∧
    (∀ i, timeUpperEdge (t.headD 0) (t.getLastD 0) F (i + 1)
        - timeUpperEdge (t.headD 0) (t.getLastD 0) F i
        = ((t.getLastD 0 : ℚ) - (t.headD 0 : ℚ)) / F) ∧
    (∀ i, i < F → ∀ j, j < t.length →
      ((timeSegStart t F i ≤ j ∧ j < timeSegEnd t F i) ↔
        (((t.getD j 0 : ℚ) ≤ timeUpperEdge (t.headD 0) (t.getLastD 0) F i) ∧
         (i = 0 ∨ ¬ ((t.getD j 0 : ℚ) ≤ timeUpperEdge (t.headD 0) (t.getLastD 0) F (i - 1)))))) ∧
    (∀ (eb : EventBuffer) (H W i : ℕ), timeSegStart t F i = timeSegEnd t F i →
      integrate_events_segment_to_frame eb H W (timeSegStart t F i) (timeSegEnd t F i)
        = Except.ok emptyFrame) := by
  have hspan : t.headD 0 ≤ t.getLastD 0 :=
    le_getLastD_of_sorted t ht 0 _ (headD_mem_of_ne_nil t hne)
  refine ⟨by simp [timeSegments], ?_, ?_, ?_, ?_, ?_⟩
  · rw [timeSegEnd, timeUpperEdge_last _ _ _ hF, countLE, List.countP_eq_length]
    intro a ha
    simp only [decide_eq_true_eq]
    exact_mod_cast le_getLastD_of_sorted t ht 0 a ha
  · intro i
    cases i with
    | zero => exact Nat.zero_le _
    | succ k =>
        rw [timeSegStart, timeSegEnd, timeSegEnd]
        exact countLE_mono t _ _ (timeUpperEdge_step_mono _ _ F hspan k)
  · intro i
    unfold timeUpperEdge
    push_cast
    ring
  · intro i hiF j hj
    cases i with
    | zero =>
        have hchar := sorted_countLE_iff
          (timeUpperEdge (t.headD 0) (t.getLastD 0) F 0) t ht j hj
        simp only [timeSegStart, timeSegEnd]
        constructor
        · rintro ⟨_, hlt⟩
          exact ⟨hchar.mp hlt, Or.inl trivial⟩
        · rintro ⟨hle, _⟩
          exact ⟨Nat.zero_le j, hchar.mpr hle⟩
    | succ k =>
        have hchark := sorted_countLE_iff
          (timeUpperEdge (t.headD 0) (t.getLastD 0) F k) t ht j hj
        have hchark1 := sorted_countLE_iff
          (timeUpperEdge (t.headD 0) (t.getLastD 0) F (k + 1)) t ht j hj
        simp only [timeSegStart, timeSegEnd, Nat.add_sub_cancel]
        constructor
        · rintro ⟨hge, hlt⟩
          refine ⟨hchark1.mp hlt, Or.inr ?_⟩
          intro hle
          have := hchark.mpr hle
          omega
        · rintro ⟨hle, hcase⟩
          rcases hcase with h0 | hgt
          · exact absurd h0 (Nat.succ_ne_zero k)
          · refine ⟨?_, hchark1.mpr hle⟩
            by_contra hlt
            push_neg at hlt
            exact hgt (hchark.mp hlt)
  · intro eb H W i h
    rw [h, integrate_events_segment_to_frame, Nat.sub_self]
    rfl

theorem claim_C2_fixed_time_split_witness :
    List.Sorted (· ≤ ·) ([0, 1, 2, 3] : List ℕ) ∧
    timeSegEnd [0, 1, 2, 3] 2 (2 - 1) = 4 :=
  ⟨by decide,
   (claim_C2_fixed_time_split [0, 1, 2, 3] 2 (by decide) (by decide) (by decide)).2.1⟩

/- ## SegmentIndexer, fixed-duration mode -/

/-- Modelled from the spec: in fixed-duration mode, segments are time windows
of exactly width `D` starting at `t0 = t[0]`; an event with timestamp `a`
belongs to the window with this zero-based index. -/
def fixedDurationIndex (t0 D a : ℕ) : ℕ := (a - t0) / D

/-- Modelled from the spec: the number of output frames in fixed-duration
mode — one frame per time window up to and including the window containing
the last event, so a final partial window still yields its own frame. -/
def fixedDurationFrameCount (t : List ℕ) (D : ℕ) : ℕ :=
  fixedDurationIndex (t.headD 0) D (t.getLastD 0) + 1

/-- C3: in fixed-duration mode on a sorted nonempty recording, the number of
output frames equals `ceil((t[N-1] - t[0] + 1) / D)` (written with natural
division); every event falls in the window `[t0 + k*D, t0 + (k+1)*D)` of its
index, so windows have exactly width `D` and start at `t[0]`; every event's
window index is below the frame count (nothing dropped); and the last event
lies in the final window, which is emitted as its own frame even when
partial. -/
theorem claim_C3_fixed_duration (t : List ℕ) (D : ℕ)
    (ht : List.Sorted (· ≤ ·) t) (hne : t ≠ []) (hD : 1 ≤ D) :
    fixedDurationFrameCount t D = (t.getLastD 0 - t.headD 0 + 1 + (D - 1)) / D ∧
    (∀ j, j < t.length → ∀ k,
      (fixedDurationIndex (t.headD 0) D (t.getD j 0) = k ↔
        (t.headD 0 + k * D ≤ t.getD j 0 ∧ t.getD j 0 < t.headD 0 + (k + 1) * D))) ∧
    (∀ j, j < t.length →
      fixedDurationIndex (t.headD 0) D (t.getD j 0) < fixedDurationFrameCount t D) ∧
    fixedDurationIndex (t.headD 0) D (t.getLastD 0) = fixedDurationFrameCount t D - 1 ∧
    (∀ k, (t.headD 0 + (k + 1) * D) - (t.headD 0 + k * D) = D) := by
  have hD' : 0 < D := hD
  refine ⟨?_, ?_, ?_, by simp [fixedDurationFrameCount], ?_⟩
  · unfold fixedDurationFrameCount fixedDurationIndex
    have hnum : t.getLastD 0 - t.headD 0 + 1 + (D - 1) = (t.getLastD 0 - t.headD 0) + D := by
      omega
    rw [hnum, Nat.add_div_right _ hD']
  · intro j hj k
    have hmem : t.getD j 0 ∈ t := getDmem_of_lt t 0 j hj
    have ht0 : t.headD 0 ≤ t.getD j 0 := headD_le_of_sorted t ht _ hmem
    unfold fixedDurationIndex
    constructor
    · intro hk
      subst hk
      have h1 : (t.getD j 0 - t.headD 0) / D * D ≤ t.getD j 0 - t.headD 0 :=
        Nat.div_mul_le_self _ _
      have h2 : t.getD j 0 - t.headD 0 < ((t.getD j 0 - t.headD 0) / D + 1) * D :=
        (Nat.div_lt_iff_lt_mul hD').mp (Nat.lt_succ_self _)
      rw [Nat.succ_mul] at h2 ⊢
      omega
    · rintro ⟨h1, h2⟩
      have hk1 : k ≤ (t.getD j 0 - t.headD 0) / D := by
        rw [Nat.le_div_iff_mul_le hD']
        omega
      have hk2 : (t.getD j 0 - t.headD 0) / D < k + 1 := by
        rw [Nat.succ_mul] at h2
        rw [Nat.div_lt_iff_lt_mul hD', Nat.succ_mul]
        omega
      omega
  · intro j hj
    have hmem : t.getD j 0 ∈ t := getDmem_of_lt t 0 j hj
    have hlast : t.getD j 0 ≤ t.getLastD 0 := le_getLastD_of_sorted t ht 0 _ hmem
    unfold fixedDurationFrameCount fixedDurationIndex
    have := Nat.div_le_div_right (c := D) (Nat.sub_le_sub_right hlast (t.headD 0))
    omega
  · intro k
    rw [Nat.succ_mul]
    omega

theorem claim_C3_fixed_duration_witness :
    List.Sorted (· ≤ ·) ([0, 5, 9] : List ℕ) ∧
    fixedDurationFrameCount [0, 5, 9] 4
      = (([0, 5, 9] : List ℕ).getLastD 0 - ([0, 5, 9] : List ℕ).headD 0 + 1 + (4 - 1)) / 4 :=
  ⟨by decide, (claim_C3_fixed_duration [0, 5, 9] 4 (by decide) (by decide) (by decide)).1⟩

/- ## FrameCache -/

/-- Modelled from the spec: persisted representation of a recording's frame
sequence — each frame is flattened to a list of counts and stored
length-prefixed, one block per frame. -/
def serializeFrames : List (List ℕ) → List ℕ
  | [] => []
  | f :: rest => f.length :: (f ++ serializeFrames rest)

/-- Modelled from the spec: reload a persisted frame sequence by reading each
length prefix and splitting off that many counts. -/
def deserializeFrames : List ℕ → List (List ℕ)
  | [] => []
  | n :: rest => rest.take n :: deserializeFrames (rest.drop n)
termination_by l => l.length
decreasing_by
  simp only [List.length_drop, List.length_cons]
  omega

lemma deserialize_serialize (fs : List (List ℕ)) :
    deserializeFrames (serializeFrames fs) = fs := by
  induction fs with
  | nil => simp [serializeFrames, deserializeFrames]
  | cons f rest ih =>
      rw [serializeFrames, deserializeFrames, List.take_left, List.drop_left, ih]

/-- Modelled from the spec: FrameCache state — the persisted entries (keyed
by the deterministic parameter-derived name) and a counter of how many times
the integration computation ran. -/
structure CacheState where
  entries : List (String × List ℕ)
  computeCount : ℕ
deriving DecidableEq

/-- Modelled from the spec: cache read — return the persisted bytes for the
key if present. -/
def cacheLookup (s : CacheState) (key : String) : Option (List ℕ) :=
  (s.entries.find? (fun kv => decide (kv.1 = key))).map Prod.snd

/-- Modelled from the spec: FrameCache get-or-compute.  On a hit, reload the
persisted frames (no recomputation); on a miss, run the integration
computation, persist the serialized frames, and return them. -/
def cacheGetFrames (computeFn : Unit → List (List ℕ)) (key : String) (s : CacheState) :
    List (List ℕ) × CacheState :=
  match cacheLookup s key with
  | some bytes => (deserializeFrames bytes, s)
  | none =>
      let frames := computeFn ()
      (frames, ⟨(key, serializeFrames frames) :: s.entries, s.computeCount + 1⟩)

/-- C6: starting from a cache with no entry for the key, requesting the same
recording and parameters twice returns identical (bit-identical) frame
sequences; the first call computes once and persists, the second call is a
cache hit that leaves the state unchanged and does not recompute (the
computation counter stays at one run); and persisting then reloading a frame
sequence is a lossless round-trip. -/
theorem claim_C6_cache_idempotent (computeFn : Unit → List (List ℕ)) (key : String)
    (s : CacheState) (hmiss : cacheLookup s key = none) :
    (cacheGetFrames computeFn key s).1 = computeFn () ∧
    (cacheGetFrames computeFn key (cacheGetFrames computeFn key s).2).1
      = (cacheGetFrames computeFn key s).1 ∧
    (cacheGetFrames computeFn key (cacheGetFrames computeFn key s).2).2
      = (cacheGetFrames computeFn key s).2 ∧
    (cacheGetFrames computeFn key s).2.computeCount = s.computeCount + 1 ∧
    (cacheGetFrames computeFn key (cacheGetFrames computeFn key s).2).2.computeCount
      = s.computeCount + 1 ∧
    (∀ fs : List (List ℕ), deserializeFrames (serializeFrames fs) = fs) := by
  have hfirst : cacheGetFrames computeFn key s
      = (computeFn (), ⟨(key, serializeFrames (computeFn ())) :: s.entries,
          s.computeCount + 1⟩) := by
    rw [cacheGetFrames, hmiss]
  have hhit : cacheLookup (⟨(key, serializeFrames (computeFn ())) :: s.entries,
      s.computeCount + 1⟩ : CacheState) key = some (serializeFrames (computeFn ())) := by
    rw [cacheLookup]
    simp [List.find?_cons_of_pos]
  have hsecond : cacheGetFrames computeFn key
      (⟨(key, serializeFrames (computeFn ())) :: s.entries,
        s.computeCount + 1⟩ : CacheState)
      = (computeFn (), ⟨(key, serializeFrames (computeFn ())) :: s.entries,
          s.computeCount + 1⟩) := by
    rw [cacheGetFrames, hhit]
    simp [deserialize_serialize]
  refine ⟨?_, ?_, ?_, ?_, ?_, deserialize_serialize⟩
  · simp [hfirst]
  · simp [hfirst, hsecond]
  · simp [hfirst, hsecond]
  · simp [hfirst]
  · simp [hfirst, hsecond]

theorem claim_C6_cache_idempotent_witness :
    cacheLookup ⟨[], 0⟩ "frames_number_4_split_by_number" = none ∧
    (cacheGetFrames (fun _ => [[3], [3], [2], [2]]) "frames_number_4_split_by_number"
      ⟨[], 0⟩).1 = [[3], [3], [2], [2]] :=
  ⟨rfl, (claim_C6_cache_idempotent (fun _ => [[3], [3], [2], [2]])
    "frames_number_4_split_by_number" ⟨[], 0⟩ rfl).1⟩

/- ## Configuration validation (C7) -/

inductive ConfigError where
  | unsupportedParameterCombination
deriving DecidableEq

/-- Modelled from the spec: configuration-time parameter validation — giving
both `frames_number` and `duration` is an unsupported combination and is
rejected; neither parameter silently takes precedence. -/
def validateConfig (frames_number duration : Option ℕ) : Except ConfigError Unit :=
  match frames_number, duration with
  | some _, some _ => Except.error ConfigError.unsupportedParameterCombination
  | _, _ => Except.ok ()

/-- Modelled from the spec: dataset construction validates the parameter
combination at configuration time, before any file I/O; the returned list is
the sequence of I/O actions performed. -/
def datasetFolderInit (frames_number duration : Option ℕ) :
    List String × Except ConfigError Unit :=
  match validateConfig frames_number duration with
  | Except.error e => ([], Except.error e)
  | Except.ok () => (["enumerate_recordings", "populate_frame_cache"], Except.ok ())

/-- C7: whenever both `frames_number` and `duration` are given, construction
fails with `UnsupportedParameterCombinationError` and the list of performed
I/O actions is empty — the conflict is rejected at configuration time, before
any file I/O, rather than silently resolved. -/
theorem claim_C7_conflicting_parameters (f d : ℕ) :
    (datasetFolderInit (some f) (some d)).2
        = Except.error ConfigError.unsupportedParameterCombination ∧
    (datasetFolderInit (some f) (some d)).1 = [] :=
  ⟨rfl, rfl⟩

/- ## nav_gesture.py: extract_downloaded_files (C8) -/

inductive PyError where
  | nameError (n : String)
  | typeError (msg : String)
deriving DecidableEq

/-- The names bound at module level of `spikingjelly/datasets/nav_gesture.py`
(source lines 1-11): the `from typing import ...` names, `sjds`,
`extract_archive`, `os`, `multiprocessing`, `ThreadPoolExecutor`, `time`,
`configure`, `np_savez`, and the class itself.  `shutil` is never
imported. -/
def navGestureModuleScope : List String :=
  ["Callable", "Dict", "Optional", "Tuple", "sjds", "extract_archive", "os",
   "multiprocessing", "ThreadPoolExecutor", "time", "configure", "np_savez",
   "NAVGestureWalk"]

/-- Python name resolution at module level: a name not bound in the module
scope (and not a builtin) raises `NameError`. -/
def resolveModuleName (n : String) : Except PyError Unit :=
  if n ∈ navGestureModuleScope then Except.ok () else Except.error (PyError.nameError n)

/-- Abstract filesystem effects of `NAVGestureWalk.extract_downloaded_files`. -/
structure ExtractFsState where
  tempExtDirExists : Bool
  outerZipExtracted : Bool
  innerZipsExtracted : Bool
deriving DecidableEq

/-- From `nav_gesture.py` lines 107-130: make `temp_ext` under
`download_root`, extract the outer `navgesture-walk.zip` into it, extract
every inner zip into `extract_root`, then call `shutil.rmtree(temp_ext_dir)`
— which first resolves the name `shutil`. -/
def extract_downloaded_files (download_root extract_root : String) :
    ExtractFsState × Option PyError :=
  let s1 : ExtractFsState := ⟨true, false, false⟩
  let s2 : ExtractFsState := ⟨s1.tempExtDirExists, true, s1.innerZipsExtracted⟩
  let s3 : ExtractFsState := ⟨s2.tempExtDirExists, s2.outerZipExtracted, true⟩
  match resolveModuleName "shutil" with
  | Except.error e => (s3, some e)
  | Except.ok () => (⟨false, s3.outerZipExtracted, s3.innerZipsExtracted⟩, none)

/-- C8: for every pair of arguments, `extract_downloaded_files` reaches its
final cleanup step with everything extracted, then raises an unhandled
`NameError` for `shutil` (which the module never imports), so the `temp_ext`
directory it created is never removed. -/
theorem claim_C8_shutil_name_error (download_root extract_root : String) :
    extract_downloaded_files download_root extract_root
      = (⟨true, true, true⟩, some (PyError.nameError "shutil")) := by
  rfl

/- ## cnn_mnist.py: log_dir branch of main (C9) -/

/-- A Python value as consumed by the `%` string-formatting operator. -/
inductive PyVal where
  | str (s : String)
  | int (n : Int)
  | pynone
deriving DecidableEq

/-- CPython `%`-formatting for a format string containing a single `%d`
conversion: a `%d` specifier requires a number; applying it to a `str` (or
`None`) raises `TypeError`. -/
def percentDFormat (fmt : String) (arg : PyVal) : Except PyError String :=
  match arg with
  | PyVal.int n => Except.ok (fmt.replace "%d" (toString n))
  | PyVal.str _ => Except.error (PyError.typeError "%d format: a number is required, not str")
  | PyVal.pynone =>
      Except.error (PyError.typeError "%d format: a number is required, not NoneType")

/-- Outcome of the `log_dir` branch of `main`: either execution proceeds to
training with a resolved `load` flag and log directory, or an exception is
raised. -/
inductive MainOutcome where
  | proceed (load : Bool) (log_dir : String)
  | raised (e : PyError)
deriving DecidableEq

/-- From `cnn_mnist.py` lines 105-119: when `log_dir` is `None` a fresh
directory name is generated and `load` stays `False`; otherwise, if
`<log_dir>/<model_name>.pkl` does not exist the code prints
`'%d has no model to load.' % (log_dir)` (formatting the string `log_dir`
with `%d`) and would set `load = False`; if it exists, `load = True`. -/
def cnnMnistLogDirBranch (log_dir : Option String) (model_name : String)
    (pkl_exists : String → Bool) (generated_dir : String) : MainOutcome :=
  match log_dir with
  | none => MainOutcome.proceed false generated_dir
  | some d =>
      if pkl_exists (d ++ "/" ++ model_name ++ ".pkl") then MainOutcome.proceed true d
      else
        match percentDFormat "%d has no model to load." (PyVal.str d) with
        | Except.error e => MainOutcome.raised e
        | Except.ok _ => MainOutcome.proceed false d

/-- C9: for every non-None `log_dir` whose `<log_dir>/<model_name>.pkl` file
does not exist, the branch raises `TypeError` from applying `%d` to the
string `log_dir`, so `main` aborts before any training instead of proceeding
with `load = False`. -/
theorem claim_C9_percent_d_type_error (d model_name : String)
    (pkl_exists : String → Bool) (generated_dir : String)
    (hmiss : pkl_exists (d ++ "/" ++ model_name ++ ".pkl") = false) :
    cnnMnistLogDirBranch (some d) model_name pkl_exists generated_dir
      = MainOutcome.raised
          (PyError.typeError "%d format: a number is required, not str") := by
  rw [cnnMnistLogDirBranch, hmiss]
  rfl

theorem claim_C9_percent_d_type_error_witness :
    (fun _ : String => false) ("logs" ++ "/" ++ "mnist" ++ ".pkl") = false ∧
    cnnMnistLogDirBranch (some "logs") "mnist" (fun _ => false) ""
      = MainOutcome.raised
          (PyError.typeError "%d format: a number is required, not str") :=
  ⟨rfl, claim_C9_percent_d_type_error "logs" "mnist" (fun _ => false) "" rfl⟩

/- ## nav_gesture.py: NAVGestureWalk.__init__ forwarding (C10) -/

/-- The positional parameters of `NeuromorphicDatasetFolder.__init__` in the
order `NAVGestureWalk.__init__` passes them (source line 88).  Opaque Python
callables and transforms are represented by optional identifiers. -/
structure NeuromorphicDatasetFolderArgs where
  root : String
  train : Option Bool
  data_type : String
  frames_number : Option ℕ
  split_by : Option String
  duration : Option ℕ
  custom_integrate_function : Option ℕ
  custom_integrated_frames_dir_name : Option String
  transform : Option ℕ
  target_transform : Option ℕ
deriving DecidableEq

/-- From `nav_gesture.py` lines 12-23 and 88: `NAVGestureWalk.__init__` takes
no train/test selection parameter and calls
`super().__init__(root, None, data_type, frames_number, split_by, duration,
custom_integrate_function, custom_integrated_frames_dir_name, transform,
target_transform)`. -/
def NAVGestureWalk_init (root data_type : String) (frames_number : Option ℕ)
    (split_by : Option String) (duration : Option ℕ)
    (custom_integrate_function : Option ℕ)
    (custom_integrated_frames_dir_name : Option String)
    (transform target_transform : Option ℕ) : NeuromorphicDatasetFolderArgs :=
  ⟨root, none, data_type, frames_number, split_by, duration,
   custom_integrate_function, custom_integrated_frames_dir_name, transform,
   target_transform⟩

/-- C10: `NAVGestureWalk.__init__` forwards every one of its parameters
unchanged to the `NeuromorphicDatasetFolder` superclass, with the train-split
argument fixed to `None`; its signature exposes no train/test selection. -/
theorem claim_C10_init_forwarding (root data_type : String) (frames_number : Option ℕ)
    (split_by : Option String) (duration : Option ℕ)
    (custom_integrate_function : Option ℕ)
    (custom_integrated_frames_dir_name : Option String)
    (transform target_transform : Option ℕ) :
    (NAVGestureWalk_init root data_type frames_number split_by duration
      custom_integrate_function custom_integrated_frames_dir_name transform
      target_transform).train = none ∧
    NAVGestureWalk_init root data_type frames_number split_by duration
      custom_integrate_function custom_integrated_frames_dir_name transform
      target_transform
      = ⟨root, none, data_type, frames_number, split_by, duration,
         custom_integrate_function, custom_integrated_frames_dir_name, transform,
         target_transform⟩ :=
  ⟨rfl, rfl⟩
